import Mathlib

/-!
# Verification of `salt/pillar/http_yaml.py` (`ext_pillar`)

Shallow embedding of the `http_yaml` external-pillar module.  Strings are
`List Char`.  The two host collaborators (the grains.get and http.query
functions of the host registry) are injected as function arguments.  The
embedding is *instrumented*: a run records the sequence of grain lookups
performed, the URLs passed to the HTTP collaborator, the log entries
emitted, and the final result, where `none` models an uncaught Python
exception propagating to the caller and `some y` models a normal return of
the value `y`.

The grain substitution at line 95 of the source calls re.sub with the
pattern built by concatenating a left angle bracket, the grain name and a
right angle bracket: the grain name is interpolated into a
*regular-expression pattern*.  We model the fragment of the Python re
module that such patterns exercise: literal characters and the
metacharacter `.` (any character except a newline).  All other regex
metacharacters are mapped to the error outcome of the substitution; every
theorem below stays inside the faithfully modelled fragment (names made of
ordinary characters, the dot name, and the lone-open-parenthesis name — the
latter genuinely raises re.error in Python).
-/

namespace HttpYaml

/-- A Python value as returned by the grains.get collaborator.  The source
passes None as the default at line 88, so an absent grain is the value None
(constructor `none`). -/
inductive PyVal where
  | str (s : List Char)
  | int (n : Int)
  | bool (b : Bool)
  | none

/-- Python truthiness (`if not grain_value`, line 90): `None`, `False`, `0`
and the empty string are falsy. -/
def truthy : PyVal → Bool
  | PyVal.str s => !s.isEmpty
  | PyVal.int n => n != 0
  | PyVal.bool b => b
  | PyVal.none => false

/-- Python `str()` applied to a grain value (line 94, `str(grain_value)`). -/
def pyStr : PyVal → List Char
  | PyVal.str s => s
  | PyVal.int n =>
      if n < 0 then '-' :: Nat.toDigits 10 n.natAbs else Nat.toDigits 10 n.toNat
  | PyVal.bool b => if b then ['T', 'r', 'u', 'e'] else ['F', 'a', 'l', 's', 'e']
  | PyVal.none => ['N', 'o', 'n', 'e']

/-- A decoded YAML value, as produced by the http.query collaborator when
asked to decode the response as yaml (line 98).  The response envelope is an
association list of string keys to such values. -/
inductive Yaml where
  | str (s : List Char)
  | int (n : Int)
  | bool (b : Bool)
  | null
  | arr (xs : List Yaml)
  | dict (kvs : List (List Char × Yaml))

/-- First-match association-list lookup, modelling indexing of the
(duplicate-free) dictionary returned by http.query together with the key
membership test of line 100. -/
def lookupKey : List (List Char × Yaml) → List Char → Option Yaml
  | [], _ => Option.none
  | kv :: rest, k => if kv.1 = k then Option.some kv.2 else lookupKey rest k

/-- The envelope key that marks a successfully decoded payload (line 100). -/
def dictKey : List Char := ['d', 'i', 'c', 't']

/-- One emitted log entry.  `errGrain` is line 91, `debugUrl` is line 97,
`errQuery` is line 103 and `errKV` is line 106 of the source. -/
inductive LogEntry where
  | errGrain (minion name : List Char)
  | debugUrl (url : List Char)
  | errQuery (minion url : List Char)
  | errKV (key : List Char) (val : Yaml)

/-- Safe characters of urllib.parse.quote with its default safe set (the
slash): ASCII alphanumerics together with underscore, dot, hyphen, tilde
and slash. -/
def safeChar (c : Char) : Bool :=
  c.isAlphanum || ['_', '.', '-', '~', '/'].contains c

/-- The UTF-8 bytes of a character (a `str` is UTF-8 encoded before
percent-encoding the unsafe bytes). -/
def utf8Bytes (c : Char) : List Nat :=
  let n := c.toNat
  if n < 128 then [n]
  else if n < 2048 then [192 + n / 64, 128 + n % 64]
  else if n < 65536 then [224 + n / 4096, 128 + (n / 64) % 64, 128 + n % 64]
  else [240 + n / 262144, 128 + (n / 4096) % 64, 128 + (n / 64) % 64, 128 + n % 64]

/-- Upper-case hexadecimal digit, as emitted by `urllib.parse.quote`. -/
def hexUpper (n : Nat) : Char :=
  if n < 10 then Char.ofNat (48 + n) else Char.ofNat (55 + n)

/-- Percent-encoding of one character under `urllib.parse.quote`. -/
def quoteChar (c : Char) : List Char :=
  if safeChar c then [c]
  else ((utf8Bytes c).map (fun b => ['%', hexUpper (b / 16), hexUpper (b % 16)])).flatten

/-- urllib.parse.quote with its default safe set (imported as _quote in the
source, lines 50–54). -/
def quote (s : List Char) : List Char := (s.map quoteChar).flatten

/-- The str.replace call of line 79: replace every non-overlapping
occurrence of the exact two-character substring percent-s by `r`, scanning
left to right. -/
def replacePercentS (r : List Char) : List Char → List Char
  | '%' :: 's' :: rest => r ++ replacePercentS r rest
  | c :: rest => c :: replacePercentS r rest
  | [] => []

/-- Scan for the first `>` that closes a placeholder opened by `<`
(the lazy group `.*?` of the pattern `<(?P<grain_name>.*?)>`, line 81).
Returns the captured name and the rest of the string after the `>`.  Fails
if a newline or the end of the string is reached first (`.` does not match
a newline). -/
def scanGt : List Char → Option (List Char × List Char)
  | [] => Option.none
  | c :: cs =>
      if c = '>' then Option.some ([], cs)
      else if c = '\n' then Option.none
      else (scanGt cs).map (fun pr => (c :: pr.1, pr.2))

/-- Fuelled worker for `findNames`.  The fuel always dominates the length of
the remaining input, so the fuel-exhausted branch is unreachable. -/
def findNamesF : Nat → List Char → List (List Char)
  | 0, _ => []
  | f + 1, [] =>
      -- keep the fuel parameter used uniformly
      (fun _ => ([] : List (List Char))) f
  | f + 1, c :: cs =>
      if c = '<' then
        match scanGt cs with
        | Option.some (name, rest) => name :: findNamesF f rest
        | Option.none => findNamesF f cs
      else findNamesF f cs

/-- The list of captured group texts of the re.finditer call at line 86
(pattern: a left angle bracket, a lazy any-character group, a right angle
bracket), in match order: leftmost, lazy, non-overlapping.  Because Python
strings are immutable and the iterator holds the string passed at line 86,
the scan is over the URL as it stood after the minion-id substitution and
*before* any grain substitution, even though the url variable is reassigned
inside the loop. -/
def findNames (s : List Char) : List (List Char) := findNamesF s.length s

/-- One node of a parsed regex pattern in the modelled fragment: a literal
character or the metacharacter `.`. -/
inductive RNode where
  | lit (c : Char)
  | dot

/-- Whether a pattern node matches one character (`.` matches anything but a
newline). -/
def nodeMatches : RNode → Char → Bool
  | RNode.lit a, c => a == c
  | RNode.dot, c => c != '\n'

/-- Parse a pattern string into nodes.  The dot becomes the any-character
node; every other regex metacharacter is outside the modelled fragment and
maps to the error outcome (for the inputs used in the theorems below — such
as a lone open parenthesis — the Python re module genuinely raises
re.error); all remaining characters are literals. -/
def regexSpecial (c : Char) : Bool :=
  ['.', '^', '$', '*', '+', '?', '\x7b', '\x7d', '[', ']', '\\', '|', '(', ')'].contains c

def parseRegex : List Char → Option (List RNode)
  | [] => Option.some []
  | c :: rest =>
      if c = '.' then (parseRegex rest).map (fun ps => RNode.dot :: ps)
      else if regexSpecial c then Option.none
      else (parseRegex rest).map (fun ps => RNode.lit c :: ps)

/-- Match a node list against a prefix of the input; on success return the
remaining suffix. -/
def matchesAt : List RNode → List Char → Option (List Char)
  | [], s => Option.some s
  | _ :: _, [] => Option.none
  | p :: ps, c :: s => if nodeMatches p c then matchesAt ps s else Option.none

/-- Fuelled worker for regex substitution: scan left to right, replace each
leftmost non-overlapping match of `phd :: ptl` by `r`.  The fuel always
dominates the input length (a match consumes at least the head character). -/
def reSubGoF : Nat → RNode → List RNode → List Char → List Char → List Char
  | 0, _, _, _, s => s
  | f + 1, _, _, _, [] => (fun _ => ([] : List Char)) f
  | f + 1, phd, ptl, r, c :: s =>
      if nodeMatches phd c then
        match matchesAt ptl s with
        | Option.some rest => r ++ reSubGoF f phd ptl r rest
        | Option.none => c :: reSubGoF f phd ptl r s
      else c :: reSubGoF f phd ptl r s

/-- `re.sub` over the modelled fragment for a non-empty pattern. -/
def reSub (phd : RNode) (ptl : List RNode) (r s : List Char) : List Char :=
  reSubGoF s.length phd ptl r s

/-- The re.sub call of line 95.  The pattern is the concatenation of a left
angle bracket, the grain name and a right angle bracket; its first
character always parses to the literal left-angle-bracket node, so only
`name ++ ['>']` remains to parse.  `Option.none` models re.error being
raised (an uncaught exception). -/
def reSubPattern (name repl s : List Char) : Option (List Char) :=
  match parseRegex (name ++ ['>']) with
  | Option.none => Option.none
  | Option.some ps => Option.some (reSub (RNode.lit '<') ps repl s)

/-- Outcome of the grain-substitution loop (lines 86–95): normal completion
with the final URL, the early empty-mapping return of line 92, or an
uncaught exception. -/
inductive LoopOut where
  | ok (url : List Char)
  | stop
  | exc

/-- The loop body of lines 86–95, iterating over the scanned grain names.
Per iteration: query `grains` (recorded in the first component), test
truthiness, on falsy log and stop (lines 90–92), otherwise substitute the
percent-encoded stringified value via the regex pattern (lines 94–95),
threading the rewritten URL. -/
def grainLoop (minion : List Char) (grains : List Char → PyVal) :
    List (List Char) → List Char → List (List Char) × List LogEntry × LoopOut
  | [], url => ([], [], LoopOut.ok url)
  | name :: rest, url =>
      let v := grains name
      if truthy v then
        match reSubPattern name (quote (pyStr v)) url with
        | Option.some url' =>
            let r := grainLoop minion grains rest url'
            (name :: r.1, r.2.1, r.2.2)
        | Option.none => ([name], [], LoopOut.exc)
      else ([name], [LogEntry.errGrain minion name], LoopOut.stop)

/-- The observable behaviour of one `ext_pillar` invocation: grain lookups
performed (in order), URLs passed to `http.query`, log entries emitted, and
the returned value (`none` = an exception escaped `ext_pillar`). -/
structure PillarRun where
  grainQueries : List (List Char)
  httpQueries : List (List Char)
  logs : List LogEntry
  result : Option Yaml

set_option linter.unusedVariables false in
/-- `ext_pillar(minion_id, pillar, url, with_grains=False)` (lines 65–108).
`pillar` is accepted and ignored, as in the source.  Steps: `%s`
substitution (line 79); if `with_grains`, the grain loop over the matches
scanned from the substituted URL (lines 83–95); the debug log and HTTP query
(lines 97–98); then the success-key branch (lines 100–108). -/
def ext_pillar (minion_id : List Char) (pillar : Yaml) (url : List Char)
    (with_grains : Bool) (grains : List Char → PyVal)
    (httpQuery : List Char → List (List Char × Yaml)) : PillarRun :=
  let url1 := replacePercentS (quote minion_id) url
  let names := if with_grains then findNames url1 else []
  match grainLoop minion_id grains names url1 with
  | (qs, logs, LoopOut.exc) => ⟨qs, [], logs, Option.none⟩
  | (qs, logs, LoopOut.stop) => ⟨qs, [], logs, Option.some (Yaml.dict [])⟩
  | (qs, logs, LoopOut.ok url2) =>
      let data := httpQuery url2
      match lookupKey data dictKey with
      | Option.some v =>
          ⟨qs, [url2], logs ++ [LogEntry.debugUrl url2], Option.some v⟩
      | Option.none =>
          ⟨qs, [url2],
            logs ++ [LogEntry.debugUrl url2, LogEntry.errQuery minion_id url2]
              ++ data.map (fun kv => LogEntry.errKV kv.1 kv.2),
            Option.some (Yaml.dict [])⟩

/-- Literal fixed-string matching: match `ptl` against a prefix of the
input, returning the remaining suffix.  Used by the spec-side literal
substitution below and to relate all-literal regex patterns to it. -/
def litMatch : List Char → List Char → Option (List Char)
  | [], s => Option.some s
  | _ :: _, [] => Option.none
  | p :: ps, c :: s => if p == c then litMatch ps s else Option.none

/-- Fuelled worker for `litReplaceAll`, in lockstep with `reSubGoF`. -/
def litReplaceAllF : Nat → Char → List Char → List Char → List Char → List Char
  | 0, _, _, _, s => s
  | f + 1, _, _, _, [] => (fun _ => ([] : List Char)) f
  | f + 1, phd, ptl, r, c :: s =>
      if phd == c then
        match litMatch ptl s with
        | Option.some rest => r ++ litReplaceAllF f phd ptl r rest
        | Option.none => c :: litReplaceAllF f phd ptl r s
      else c :: litReplaceAllF f phd ptl r s

/-- Modelled from the words of the spec (replace every literal occurrence
of the exact bracketed substring): replacement of every leftmost
non-overlapping occurrence of the literal string `phd :: ptl` by `r`.  This
is the comparison definition for the refinement claims about the
substitution step; the source itself performs the regex substitution
`reSubPattern`. -/
def litReplaceAll (phd : Char) (ptl r s : List Char) : List Char :=
  litReplaceAllF s.length phd ptl r s

/-- A character that the modelled regex fragment handles and whose handling
agrees with the Python re module: the dot metacharacter or any non-special
character. -/
def benignChar (c : Char) : Bool := (c == '.') || !(regexSpecial c)

/-! ## Supporting lemmas -/

theorem matchesAt_map_lit (l : List Char) : ∀ s, matchesAt (l.map RNode.lit) s = litMatch l s := by
  induction l with
  | nil => intro s; rfl
  | cons p ps ih =>
      intro s
      cases s with
      | nil => rfl
      | cons c s' =>
          simp only [List.map_cons, matchesAt, litMatch, nodeMatches]
          rw [ih s']

theorem reSubGoF_lit (phd : Char) (ptl r : List Char) :
    ∀ (f : Nat) (s : List Char),
      reSubGoF f (RNode.lit phd) (ptl.map RNode.lit) r s = litReplaceAllF f phd ptl r s := by
  intro f
  induction f with
  | zero => intro s; rfl
  | succ f ih =>
      intro s
      cases s with
      | nil => rfl
      | cons c s' =>
          simp only [reSubGoF, litReplaceAllF, nodeMatches, matchesAt_map_lit]
          cases hp : phd == c
          · simp [ih]
          · cases hm : litMatch ptl s' <;> simp [ih]

theorem reSub_lit (phd : Char) (ptl r s : List Char) :
    reSub (RNode.lit phd) (ptl.map RNode.lit) r s = litReplaceAll phd ptl r s :=
  reSubGoF_lit phd ptl r s.length s

theorem parseRegex_ordinary (l : List Char) (h : ∀ c ∈ l, regexSpecial c = false) :
    parseRegex l = Option.some (l.map RNode.lit) := by
  induction l with
  | nil => rfl
  | cons c rest ih =>
      have hc := h c (List.mem_cons_self c rest)
      have hdot : ¬ c = '.' := by
        intro he
        rw [he] at hc
        exact absurd hc (by decide)
      rw [List.map_cons]
      simp [parseRegex, hdot, hc, ih (fun d hd => h d (List.mem_cons_of_mem c hd))]

theorem parseRegex_isSome (l : List Char) (h : ∀ c ∈ l, benignChar c = true) :
    (parseRegex l).isSome = true := by
  induction l with
  | nil => rfl
  | cons c rest ih =>
      have hc := h c (List.mem_cons_self c rest)
      have hr := ih (fun d hd => h d (List.mem_cons_of_mem c hd))
      obtain ⟨ps, hps⟩ := Option.isSome_iff_exists.mp hr
      by_cases hdot : c = '.'
      · simp [parseRegex, hdot, hps]
      · have hspec : regexSpecial c = false := by
          have hb : (c == '.') = false := by
            cases he : c == '.'
            · rfl
            · exact absurd (beq_iff_eq.mp he) hdot
          unfold benignChar at hc
          rw [hb] at hc
          simpa using hc
        simp [parseRegex, hdot, hspec, hps]

theorem reSubPattern_isSome (name r s : List Char) (h : ∀ c ∈ name, benignChar c = true) :
    ∃ u, reSubPattern name r s = Option.some u := by
  have hb : ∀ c ∈ name ++ ['>'], benignChar c = true := by
    intro c hc
    rcases List.mem_append.mp hc with h1 | h1
    · exact h c h1
    · have : c = '>' := by simpa using h1
      rw [this]; decide
  obtain ⟨ps, hps⟩ := Option.isSome_iff_exists.mp (parseRegex_isSome (name ++ ['>']) hb)
  exact ⟨reSub (RNode.lit '<') ps r s, by simp [reSubPattern, hps]⟩

/-- Unfold equation for `grainLoop`: truthy grain, successful substitution. -/
theorem grainLoop_cons_true (minion : List Char) (grains : List Char → PyVal)
    (n : List Char) (rest : List (List Char)) (url u' : List Char)
    (ht : truthy (grains n) = true)
    (hu : reSubPattern n (quote (pyStr (grains n))) url = Option.some u') :
    grainLoop minion grains (n :: rest) url =
      (n :: (grainLoop minion grains rest u').1,
        (grainLoop minion grains rest u').2.1,
        (grainLoop minion grains rest u').2.2) := by
  simp only [grainLoop]
  rw [ht, hu]
  rfl

/-- Unfold equation for `grainLoop`: falsy grain. -/
theorem grainLoop_cons_false (minion : List Char) (grains : List Char → PyVal)
    (n : List Char) (rest : List (List Char)) (url : List Char)
    (ht : truthy (grains n) = false) :
    grainLoop minion grains (n :: rest) url =
      ([n], [LogEntry.errGrain minion n], LoopOut.stop) := by
  simp only [grainLoop]
  rw [ht]
  rfl

/-- Unfold equation for `grainLoop`: truthy grain, substitution raises. -/
theorem grainLoop_cons_exc (minion : List Char) (grains : List Char → PyVal)
    (n : List Char) (rest : List (List Char)) (url : List Char)
    (ht : truthy (grains n) = true)
    (hu : reSubPattern n (quote (pyStr (grains n))) url = Option.none) :
    grainLoop minion grains (n :: rest) url = ([n], [], LoopOut.exc) := by
  simp only [grainLoop]
  rw [ht, hu]
  rfl

theorem grainLoop_noExc (minion : List Char) (grains : List Char → PyVal) :
    ∀ names : List (List Char), (∀ n ∈ names, ∀ c ∈ n, benignChar c = true) →
      ∀ url, (grainLoop minion grains names url).2.2 ≠ LoopOut.exc := by
  intro names
  induction names with
  | nil => intro _ url; simp [grainLoop]
  | cons n rest ih =>
      intro h url
      cases ht : truthy (grains n)
      · rw [grainLoop_cons_false minion grains n rest url ht]
        simp
      · obtain ⟨u', hu⟩ :=
          reSubPattern_isSome n (quote (pyStr (grains n))) url (h n (List.mem_cons_self n rest))
        rw [grainLoop_cons_true minion grains n rest url u' ht hu]
        exact ih (fun m hm => h m (List.mem_cons_of_mem n hm)) u'

theorem grainLoop_congr (minion : List Char) (grains grains' : List Char → PyVal) :
    ∀ names : List (List Char), (∀ n ∈ names, grains n = grains' n) →
      ∀ url, grainLoop minion grains names url = grainLoop minion grains' names url := by
  intro names
  induction names with
  | nil => intro _ url; rfl
  | cons n rest ih =>
      intro h url
      have hn := h n (List.mem_cons_self n rest)
      have hr := ih (fun m hm => h m (List.mem_cons_of_mem n hm))
      cases ht : truthy (grains' n)
      · rw [grainLoop_cons_false minion grains n rest url (by rw [hn]; exact ht),
          grainLoop_cons_false minion grains' n rest url ht]
      · cases hsub : reSubPattern n (quote (pyStr (grains' n))) url with
        | none =>
            rw [grainLoop_cons_exc minion grains n rest url (by rw [hn]; exact ht)
                (by rw [hn]; exact hsub),
              grainLoop_cons_exc minion grains' n rest url ht hsub]
        | some u' =>
            rw [grainLoop_cons_true minion grains n rest url u' (by rw [hn]; exact ht)
                (by rw [hn]; exact hsub),
              grainLoop_cons_true minion grains' n rest url u' ht hsub, hr u']

theorem grainLoop_queriesAux (minion : List Char) (grains : List Char → PyVal) :
    ∀ (names : List (List Char)) (url : List Char),
      ∃ rest, names = (grainLoop minion grains names url).1 ++ rest := by
  intro names
  induction names with
  | nil => intro url; exact ⟨[], rfl⟩
  | cons n rest ih =>
      intro url
      cases ht : truthy (grains n)
      · exact ⟨rest, by rw [grainLoop_cons_false minion grains n rest url ht]; rfl⟩
      · cases hsub : reSubPattern n (quote (pyStr (grains n))) url with
        | none => exact ⟨rest, by rw [grainLoop_cons_exc minion grains n rest url ht hsub]; rfl⟩
        | some u' =>
            obtain ⟨r', hr'⟩ := ih u'
            refine ⟨r', ?_⟩
            rw [grainLoop_cons_true minion grains n rest url u' ht hsub]
            exact congrArg (n :: ·) hr'

theorem grainLoop_stopAt (minion : List Char) (grains : List Char → PyVal)
    (pre : List (List Char)) (n : List Char) (post : List (List Char))
    (hpre : ∀ m ∈ pre, truthy (grains m) = true ∧ ∀ c ∈ m, benignChar c = true)
    (hn : truthy (grains n) = false) :
    ∀ url, grainLoop minion grains (pre ++ n :: post) url =
      (pre ++ [n], [LogEntry.errGrain minion n], LoopOut.stop) := by
  induction pre with
  | nil =>
      intro url
      rw [List.nil_append, grainLoop_cons_false minion grains n post url hn, List.nil_append]
  | cons m pre' ih =>
      intro url
      have hm := hpre m (List.mem_cons_self m pre')
      obtain ⟨u', hu⟩ := reSubPattern_isSome m (quote (pyStr (grains m))) url hm.2
      rw [List.cons_append,
        grainLoop_cons_true minion grains m (pre' ++ n :: post) url u' hm.1 hu,
        ih (fun m' hm' => hpre m' (List.mem_cons_of_mem m hm')) u']
      simp

/-- Helper: the run components produced on the path where the grain loop
completes normally. -/
theorem ext_pillar_ok_queries (minion : List Char) (pillar : Yaml) (url : List Char)
    (wg : Bool) (grains : List Char → PyVal) (q : List Char → List (List Char × Yaml))
    (qs : List (List Char)) (logs : List LogEntry) (u2 : List Char)
    (hloop : grainLoop minion grains
        (if wg then findNames (replacePercentS (quote minion) url) else [])
        (replacePercentS (quote minion) url) = (qs, logs, LoopOut.ok u2)) :
    (ext_pillar minion pillar url wg grains q).httpQueries = [u2]
    ∧ (ext_pillar minion pillar url wg grains q).grainQueries = qs := by
  simp only [ext_pillar]
  rw [hloop]
  cases hl : lookupKey (q u2) dictKey <;> simp [hl]

/-- Helper: the grain queries of a run are those of the grain loop. -/
theorem ext_pillar_grainQueries_eq (minion : List Char) (pillar : Yaml) (url : List Char)
    (wg : Bool) (grains : List Char → PyVal) (q : List Char → List (List Char × Yaml)) :
    (ext_pillar minion pillar url wg grains q).grainQueries =
      (grainLoop minion grains
        (if wg then findNames (replacePercentS (quote minion) url) else [])
        (replacePercentS (quote minion) url)).1 := by
  simp only [ext_pillar]
  rcases hloop : grainLoop minion grains
      (if wg then findNames (replacePercentS (quote minion) url) else [])
      (replacePercentS (quote minion) url) with ⟨qs, logs, out⟩
  cases out with
  | exc => rfl
  | stop => rfl
  | ok u2 => cases hl : lookupKey (q u2) dictKey <;> simp [hl]

/-- Helper: the concrete template used in the spec examples, with the
minion-id replacement left symbolic. -/
theorem replacePercentS_template (r : List Char) :
    replacePercentS r ['h', 't', 't', 'p', ':', '/', '/', 'x', '/', '%', 's'] =
      ['h', 't', 't', 'p', ':', '/', '/', 'x', '/'] ++ r := by
  have h : replacePercentS r ['h', 't', 't', 'p', ':', '/', '/', 'x', '/', '%', 's'] =
      ['h', 't', 't', 'p', ':', '/', '/', 'x', '/'] ++ (r ++ replacePercentS r []) := rfl
  rw [h, show replacePercentS r ([] : List Char) = [] from rfl, List.append_nil]

/-! ## Claim theorems -/

/-- Claim C1, counterexample: with a grain name that is an invalid regex
pattern (a lone open parenthesis) and a truthy grain value, the re.sub call
of line 95 raises re.error, which escapes `ext_pillar`; the result is not a
mapping but an uncaught exception (`Option.none`), refuting the claim that
every failure path is absorbed into an empty-mapping return. -/
theorem ext_pillar_exc_cx :
    (ext_pillar ['m'] (Yaml.dict []) ['<', '(', '>'] true
      (fun nm => if nm = ['('] then PyVal.str ['v'] else PyVal.none)
      (fun _ => [])).result = Option.none := rfl

/-- Claim C1, amended: `ext_pillar` never lets an exception escape and
always returns a value, provided every scanned placeholder name stays in
the benign regex fragment (only ordinary characters or dots); all other
failure paths are absorbed into an empty-mapping return plus logging. -/
theorem ext_pillar_noThrow (minion : List Char) (pillar : Yaml) (url : List Char)
    (wg : Bool) (grains : List Char -> PyVal) (q : List Char -> List (List Char × Yaml))
    (h : ∀ n ∈ (if wg then findNames (replacePercentS (quote minion) url) else []),
      ∀ c ∈ n, benignChar c = true) :
    ((ext_pillar minion pillar url wg grains q).result).isSome = true := by
  have hne := grainLoop_noExc minion grains
    (if wg then findNames (replacePercentS (quote minion) url) else []) h
    (replacePercentS (quote minion) url)
  simp only [ext_pillar]
  rcases hloop : grainLoop minion grains
      (if wg then findNames (replacePercentS (quote minion) url) else [])
      (replacePercentS (quote minion) url) with ⟨qs, logs, out⟩
  cases out with
  | exc => rw [hloop] at hne; simp at hne
  | stop => rfl
  | ok u2 => cases hl : lookupKey (q u2) dictKey <;> simp [hl]

/-- Witness for the amended C1 theorem at a concrete input. -/
theorem ext_pillar_noThrow_witness :
    ((ext_pillar ['m'] (Yaml.dict []) ['<', 'a', '>'] true
      (fun _ => PyVal.str ['v']) (fun _ => [])).result).isSome = true :=
  ext_pillar_noThrow ['m'] (Yaml.dict []) ['<', 'a', '>'] true
    (fun _ => PyVal.str ['v']) (fun _ => []) (by decide)

/-- Claim C2, counterexample: the substitution of line 95 is a regex
substitution, not a literal-substring one.  With the URL made of the two
placeholders dot and b, grain values v for the dot name and w for b, the
code resolves the URL to vv (the dot pattern also consumes the b
placeholder), while literal every-occurrence replacement — as the claim
states — would resolve it to vw. -/
theorem ext_pillar_regexName_cx :
    (ext_pillar ['m'] (Yaml.dict []) ['<', '.', '>', '<', 'b', '>'] true
      (fun nm => if nm = ['.'] then PyVal.str ['v'] else
        if nm = ['b'] then PyVal.str ['w'] else PyVal.none)
      (fun _ => [])).httpQueries = [['v', 'v']]
    ∧ litReplaceAll '<' ['.', '>'] ['v'] ['<', '.', '>', '<', 'b', '>'] = ['v', '<', 'b', '>']
    ∧ litReplaceAll '<' ['b', '>'] ['w'] ['v', '<', 'b', '>'] = ['v', 'w']
    ∧ (['v', 'v'] : List Char) ≠ ['v', 'w'] :=
  ⟨rfl, rfl, rfl, by decide⟩

/-- Claim C2, amended: for placeholder names free of regex metacharacters
the substitution of line 95 coincides with literal every-occurrence
replacement of the exact bracketed substring; in general the name is
interpreted as a regex pattern (the replacement text itself is inserted
literally, since percent-encoding leaves no backslash in it). -/
theorem reSubPattern_literal_of_ordinary (name repl s : List Char)
    (h : ∀ c ∈ name, regexSpecial c = false) :
    reSubPattern name repl s = Option.some (litReplaceAll '<' (name ++ ['>']) repl s) := by
  have h2 : ∀ c ∈ name ++ ['>'], regexSpecial c = false := by
    intro c hc
    rcases List.mem_append.mp hc with h1 | h1
    · exact h c h1
    · have hc2 : c = '>' := by simpa using h1
      rw [hc2]; rfl
  simp only [reSubPattern, parseRegex_ordinary (name ++ ['>']) h2, reSub_lit]

/-- Witness for the amended C2 theorem at a concrete input. -/
theorem reSubPattern_literal_witness :
    (∀ c ∈ (['a'] : List Char), regexSpecial c = false)
    ∧ reSubPattern ['a'] ['v'] ['<', 'a', '>', '<', 'a', '>']
        = Option.some (litReplaceAll '<' (['a'] ++ ['>']) ['v'] ['<', 'a', '>', '<', 'a', '>']) :=
  ⟨by decide, reSubPattern_literal_of_ordinary ['a'] ['v'] ['<', 'a', '>', '<', 'a', '>'] (by decide)⟩

/-- Claim C3 (confirmed): when the scan of the substituted URL yields some
placeholder whose grain value is falsy — all earlier scanned placeholders
having truthy values and benign names, so that the loop reaches it — the
function logs exactly one error entry naming the minion and the grain,
queries no further grains, never calls the HTTP collaborator, and returns
the empty mapping, independently of the HTTP collaborator. -/
theorem ext_pillar_missingGrain (minion : List Char) (pillar : Yaml) (url : List Char)
    (grains : List Char → PyVal) (q : List Char → List (List Char × Yaml))
    (pre : List (List Char)) (n : List Char) (post : List (List Char))
    (hscan : findNames (replacePercentS (quote minion) url) = pre ++ n :: post)
    (hpre : ∀ m ∈ pre, truthy (grains m) = true ∧ ∀ c ∈ m, benignChar c = true)
    (hn : truthy (grains n) = false) :
    ext_pillar minion pillar url true grains q =
      ⟨pre ++ [n], [], [LogEntry.errGrain minion n], Option.some (Yaml.dict [])⟩ := by
  simp only [ext_pillar, if_true]
  rw [hscan, grainLoop_stopAt minion grains pre n post hpre hn (replacePercentS (quote minion) url)]

/-- Witness for the C3 theorem: the missing-grain example of the spec. -/
theorem ext_pillar_missingGrain_witness :
    ext_pillar ['m'] (Yaml.dict []) ['<', 'a', '>'] true (fun _ => PyVal.none) (fun _ => []) =
      ⟨[['a']], [], [LogEntry.errGrain ['m'] ['a']], Option.some (Yaml.dict [])⟩ :=
  ext_pillar_missingGrain ['m'] (Yaml.dict []) ['<', 'a', '>'] (fun _ => PyVal.none)
    (fun _ => []) [] ['a'] [] rfl (fun m hm => absurd hm (List.not_mem_nil m)) rfl

/-- Claim C4, counterexample: for the double-placeholder template the grain
lookup for a is performed twice (once per scanned occurrence), not exactly
once as the claim states. -/
theorem ext_pillar_doubleGrain_cx :
    ((ext_pillar ['m'] (Yaml.dict [])
      ['h', 't', 't', 'p', ':', '/', '/', 'x', '/', '<', 'a', '>', '/', '<', 'a', '>'] true
      (fun nm => if nm = ['a'] then PyVal.str ['v'] else PyVal.none)
      (fun _ => [])).grainQueries).length ≠ 1 := by decide

/-- Claim C4, amended: for the double-placeholder template with grain a
valued v, the resolved URL is as the claim states, but the lookup for a is
performed twice, once per scanned occurrence; the first substitution
replaces both occurrences and the second is a no-op. -/
theorem ext_pillar_doubleGrain (pillar : Yaml) (q : List Char → List (List Char × Yaml)) :
    (ext_pillar ['m'] pillar
      ['h', 't', 't', 'p', ':', '/', '/', 'x', '/', '<', 'a', '>', '/', '<', 'a', '>'] true
      (fun nm => if nm = ['a'] then PyVal.str ['v'] else PyVal.none) q).grainQueries
        = [['a'], ['a']]
    ∧ (ext_pillar ['m'] pillar
      ['h', 't', 't', 'p', ':', '/', '/', 'x', '/', '<', 'a', '>', '/', '<', 'a', '>'] true
      (fun nm => if nm = ['a'] then PyVal.str ['v'] else PyVal.none) q).httpQueries
        = [['h', 't', 't', 'p', ':', '/', '/', 'x', '/', 'v', '/', 'v']] := by
  have h := ext_pillar_ok_queries ['m'] pillar
    ['h', 't', 't', 'p', ':', '/', '/', 'x', '/', '<', 'a', '>', '/', '<', 'a', '>'] true
    (fun nm => if nm = ['a'] then PyVal.str ['v'] else PyVal.none) q
    [['a'], ['a']] [] ['h', 't', 't', 'p', ':', '/', '/', 'x', '/', 'v', '/', 'v'] rfl
  exact ⟨h.2, h.1⟩

/-- Claim C5 (confirmed): the minion-id substitution replaces every
occurrence of the two-character percent-s placeholder with the
percent-encoded minion id; it is applied to the template before any grain
processing and independently of the with_grains flag.  The second conjunct
is the universally-quantified spec example; the third shows the same
substituted URL being used when with_grains is true. -/
theorem ext_pillar_percentS (minion : List Char) (pillar : Yaml) (url : List Char)
    (grains : List Char → PyVal) (q : List Char → List (List Char × Yaml)) :
    (ext_pillar minion pillar url false grains q).httpQueries
        = [replacePercentS (quote minion) url]
    ∧ (ext_pillar minion pillar ['h', 't', 't', 'p', ':', '/', '/', 'x', '/', '%', 's']
        false grains q).httpQueries
        = [['h', 't', 't', 'p', ':', '/', '/', 'x', '/'] ++ quote minion]
    ∧ (ext_pillar ['i', 'd'] pillar ['h', 't', 't', 'p', ':', '/', '/', 'x', '/', '%', 's']
        true grains q).httpQueries
        = [['h', 't', 't', 'p', ':', '/', '/', 'x', '/', 'i', 'd']] := by
  refine ⟨(ext_pillar_ok_queries minion pillar url false grains q [] []
      (replacePercentS (quote minion) url) rfl).1, ?_,
    (ext_pillar_ok_queries ['i', 'd'] pillar
      ['h', 't', 't', 'p', ':', '/', '/', 'x', '/', '%', 's'] true grains q [] []
      ['h', 't', 't', 'p', ':', '/', '/', 'x', '/', 'i', 'd'] rfl).1⟩
  rw [(ext_pillar_ok_queries minion pillar
      ['h', 't', 't', 'p', ':', '/', '/', 'x', '/', '%', 's'] false grains q [] []
      (replacePercentS (quote minion) ['h', 't', 't', 'p', ':', '/', '/', 'x', '/', '%', 's'])
      rfl).1, replacePercentS_template]

/-- Claim C6 (confirmed): when the envelope stores a dictionary payload
under the success key, `ext_pillar` returns exactly that payload, with no
validation, filtering or transformation. -/
theorem ext_pillar_successDict (minion : List Char) (pillar : Yaml) (url : List Char)
    (wg : Bool) (grains : List Char → PyVal) (q : List Char → List (List Char × Yaml))
    (qs : List (List Char)) (logs : List LogEntry) (u2 : List Char)
    (m : List (List Char × Yaml))
    (hloop : grainLoop minion grains
        (if wg then findNames (replacePercentS (quote minion) url) else [])
        (replacePercentS (quote minion) url) = (qs, logs, LoopOut.ok u2))
    (hdict : lookupKey (q u2) dictKey = Option.some (Yaml.dict m)) :
    (ext_pillar minion pillar url wg grains q).result = Option.some (Yaml.dict m) := by
  simp only [ext_pillar]
  rw [hloop]
  simp [hdict]

/-- Witness for the C6 theorem: the role-web example of the spec. -/
theorem ext_pillar_successDict_witness :
    (ext_pillar ['m'] (Yaml.dict []) ['u'] false (fun _ => PyVal.none)
      (fun _ => [(dictKey, Yaml.dict [(['r', 'o', 'l', 'e'], Yaml.str ['w', 'e', 'b'])])])).result
      = Option.some (Yaml.dict [(['r', 'o', 'l', 'e'], Yaml.str ['w', 'e', 'b'])]) :=
  ext_pillar_successDict ['m'] (Yaml.dict []) ['u'] false (fun _ => PyVal.none)
    (fun _ => [(dictKey, Yaml.dict [(['r', 'o', 'l', 'e'], Yaml.str ['w', 'e', 'b'])])])
    [] [] ['u'] [(['r', 'o', 'l', 'e'], Yaml.str ['w', 'e', 'b'])] rfl rfl

/-- Claim C7 (confirmed): when the envelope lacks the success key the run
returns the empty mapping with exactly one error entry identifying the
minion and the resolved URL followed by exactly one error entry per
key/value pair of the envelope (after the debug entry of line 97);
the branch inspects nothing but the presence of the success key, so
network failure, HTTP error status and YAML-parse failure are reported
identically. -/
theorem ext_pillar_failureLogs (minion : List Char) (pillar : Yaml) (url : List Char)
    (wg : Bool) (grains : List Char → PyVal) (q : List Char → List (List Char × Yaml))
    (qs : List (List Char)) (logs : List LogEntry) (u2 : List Char)
    (hloop : grainLoop minion grains
        (if wg then findNames (replacePercentS (quote minion) url) else [])
        (replacePercentS (quote minion) url) = (qs, logs, LoopOut.ok u2))
    (hnone : lookupKey (q u2) dictKey = Option.none) :
    ext_pillar minion pillar url wg grains q =
      ⟨qs, [u2],
        logs ++ [LogEntry.debugUrl u2, LogEntry.errQuery minion u2]
          ++ (q u2).map (fun kv => LogEntry.errKV kv.1 kv.2),
        Option.some (Yaml.dict [])⟩ := by
  simp only [ext_pillar]
  rw [hloop]
  simp [hnone]

/-- Witness for the C7 theorem: the error-timeout example of the spec. -/
theorem ext_pillar_failureLogs_witness :
    ext_pillar ['m'] (Yaml.dict []) ['u'] false (fun _ => PyVal.none)
      (fun _ => [(['e', 'r', 'r', 'o', 'r'], Yaml.str ['t', 'i', 'm', 'e', 'o', 'u', 't'])]) =
      ⟨[], [['u']],
        [LogEntry.debugUrl ['u'], LogEntry.errQuery ['m'] ['u'],
          LogEntry.errKV ['e', 'r', 'r', 'o', 'r'] (Yaml.str ['t', 'i', 'm', 'e', 'o', 'u', 't'])],
        Option.some (Yaml.dict [])⟩ :=
  ext_pillar_failureLogs ['m'] (Yaml.dict []) ['u'] false (fun _ => PyVal.none)
    (fun _ => [(['e', 'r', 'r', 'o', 'r'], Yaml.str ['t', 'i', 'm', 'e', 'o', 'u', 't'])])
    [] [] ['u'] rfl rfl

/-- Claim C8 (confirmed): `ext_pillar` is deterministic and reads only its
inputs and collaborators — its behaviour is unchanged under replacing the
ignored pillar argument and under any collaborators that return the same
values (the grain store need only agree on the names actually scanned from
the URL). -/
theorem ext_pillar_deterministic (minion : List Char) (pillar pillar' : Yaml)
    (url : List Char) (wg : Bool) (grains grains' : List Char → PyVal)
    (q q' : List Char → List (List Char × Yaml))
    (hg : ∀ n ∈ findNames (replacePercentS (quote minion) url), grains n = grains' n)
    (hq : ∀ u, q u = q' u) :
    ext_pillar minion pillar url wg grains q = ext_pillar minion pillar' url wg grains' q' := by
  have hq2 : q = q' := funext hq
  subst hq2
  have hnames : ∀ n ∈ (if wg then findNames (replacePercentS (quote minion) url) else []),
      grains n = grains' n := by
    cases wg
    · intro n hn; exact absurd hn (List.not_mem_nil n)
    · intro n hn; exact hg n hn
  simp only [ext_pillar]
  rw [grainLoop_congr minion grains grains'
    (if wg then findNames (replacePercentS (quote minion) url) else []) hnames
    (replacePercentS (quote minion) url)]

/-- Witness for the C8 theorem: a placeholder-free URL makes the run
independent of the grain store entirely, and of the ignored pillar. -/
theorem ext_pillar_deterministic_witness :
    ext_pillar ['m'] (Yaml.dict []) ['u'] false (fun _ => PyVal.none) (fun _ => []) =
      ext_pillar ['m'] (Yaml.str []) ['u'] false (fun _ => PyVal.str ['x']) (fun _ => []) :=
  ext_pillar_deterministic ['m'] (Yaml.dict []) (Yaml.str []) ['u'] false
    (fun _ => PyVal.none) (fun _ => PyVal.str ['x']) (fun _ => []) (fun _ => [])
    (fun n hn => absurd hn (List.not_mem_nil n)) (fun _ => rfl)

/-- Claim C9 (confirmed): the success check is presence-only — whatever
value the envelope stores under the success key is returned as-is, mapping
or not. -/
theorem ext_pillar_dictPresenceOnly (minion : List Char) (pillar : Yaml) (url : List Char)
    (wg : Bool) (grains : List Char → PyVal) (q : List Char → List (List Char × Yaml))
    (qs : List (List Char)) (logs : List LogEntry) (u2 : List Char) (v : Yaml)
    (hloop : grainLoop minion grains
        (if wg then findNames (replacePercentS (quote minion) url) else [])
        (replacePercentS (quote minion) url) = (qs, logs, LoopOut.ok u2))
    (hv : lookupKey (q u2) dictKey = Option.some v) :
    (ext_pillar minion pillar url wg grains q).result = Option.some v := by
  simp only [ext_pillar]
  rw [hloop]
  simp [hv]

/-- Witness for the C9 theorem: a non-mapping payload (a plain string) under
the success key is returned verbatim. -/
theorem ext_pillar_dictPresenceOnly_witness :
    (ext_pillar ['m'] (Yaml.dict []) ['u'] false (fun _ => PyVal.none)
      (fun _ => [(dictKey, Yaml.str ['o', 'o', 'p', 's'])])).result
      = Option.some (Yaml.str ['o', 'o', 'p', 's']) :=
  ext_pillar_dictPresenceOnly ['m'] (Yaml.dict []) ['u'] false (fun _ => PyVal.none)
    (fun _ => [(dictKey, Yaml.str ['o', 'o', 'p', 's'])])
    [] [] ['u'] (Yaml.str ['o', 'o', 'p', 's']) rfl rfl

/-- Claim C10, counterexample: a truthy grain value containing another
bracketed placeholder is inserted percent-encoded — the final URL contains
no left angle bracket at all, so the bracketed text does not remain in the
final URL as the claim states (no lookup of the other name happens, as the
claim also states). -/
theorem ext_pillar_noRescan_cx :
    (ext_pillar ['m'] (Yaml.dict [])
      ['h', 't', 't', 'p', ':', '/', '/', 'x', '/', '<', 'a', '>'] true
      (fun nm => if nm = ['a'] then PyVal.str ['<', 'b', '>'] else PyVal.none)
      (fun _ => [])).grainQueries = [['a']]
    ∧ (ext_pillar ['m'] (Yaml.dict [])
      ['h', 't', 't', 'p', ':', '/', '/', 'x', '/', '<', 'a', '>'] true
      (fun nm => if nm = ['a'] then PyVal.str ['<', 'b', '>'] else PyVal.none)
      (fun _ => [])).httpQueries
        = [['h', 't', 't', 'p', ':', '/', '/', 'x', '/', '%', '3', 'C', 'b', '%', '3', 'E']]
    ∧ ¬ ('<' ∈ ['h', 't', 't', 'p', ':', '/', '/', 'x', '/', '%', '3', 'C', 'b', '%', '3', 'E']) :=
  ⟨rfl, rfl, by decide⟩

/-- Claim C10, amended: the grain names looked up are always an initial
segment (all of it, when resolution completes) of the placeholder scan of
the URL as it stood after minion-id substitution and before any grain
substitution; substituted values are never re-scanned for placeholders. -/
theorem ext_pillar_scanSnapshot (minion : List Char) (pillar : Yaml) (url : List Char)
    (wg : Bool) (grains : List Char → PyVal) (q : List Char → List (List Char × Yaml)) :
    ∃ rest, (if wg then findNames (replacePercentS (quote minion) url) else []) =
      (ext_pillar minion pillar url wg grains q).grainQueries ++ rest := by
  rw [ext_pillar_grainQueries_eq minion pillar url wg grains q]
  exact grainLoop_queriesAux minion grains
    (if wg then findNames (replacePercentS (quote minion) url) else [])
    (replacePercentS (quote minion) url)

end HttpYaml
